import Mathlib

/-!
Shallow embedding of the shared path-addressing / record-extraction engine of
the json-tools / csv-tools scripts (source: `scripts-node/common.mjs`).

Modelling conventions:
* A JavaScript JSON value is modelled by `Json`.  Numbers are modelled as
  integers (`Int`): every number appearing in the verified claims is integral,
  and `Number.isInteger` holds for all of them.  `Json.undefined` models the
  JavaScript value `undefined`, which can arise from `item[token]` on a
  property miss; it is never produced by parsing a JSON document.
* A JavaScript object is an insertion-ordered association list with (as in any
  real JS object) no duplicate keys; `Object.keys`/`Object.entries`/
  `Object.values` enumerate in insertion order.
* JavaScript strings are modelled by `String`, compared character-wise
  (identical to UTF-16 code-unit comparison on the Basic Multilingual Plane,
  which covers every string the claims mention).
* `parseInt` on an all-digit token is modelled exactly (the double-precision
  rounding JavaScript applies beyond 2^53 is out of scope; no claim involves
  such indices).
-/

/-- A JSON-like value tree, as handled by the engine (`common.mjs`). -/
inductive Json where
  | null
  | undefined
  | bool (b : Bool)
  | num (n : Int)
  | str (s : String)
  | arr (xs : List Json)
  | obj (es : List (String × Json))

/-- A path token as the JavaScript code stores it: `parsePath` pushes either a
string (mapping key, or the wildcard string `"*"`) or an integer (bracket
index).  The JS engine distinguishes the two cases at navigation time with
`token === "*"` and `Number.isInteger(token)`. -/
inductive JTok where
  | s (v : String)
  | i (v : Int)
  deriving DecidableEq

/-! ## Path scanner: `PATH_TOKEN_RE = /([^.\[\]]+)|(\[(\*|\d+)\])/g` with
`String.prototype.matchAll`.

`matchAll` semantics: starting at the current position, try the regex; on a
match consume it and emit it, on a failure advance one character.  The first
alternative `[^.\[\]]+` greedily takes a maximal run of characters other than
`.`, `[`, `]` (it can never start at such a character); the second matches
`[` then either `*` or a maximal digit run, then `]` (backtracking inside
`\d+` can never produce a match the maximal run does not). -/

/-- Characters excluded from the first regex alternative `[^.\[\]]+`. -/
def isSpecial (c : Char) : Bool := c = '.' || c = '[' || c = ']'

/-- Maximal prefix of non-special characters (the match of `[^.\[\]]+`),
paired with the remaining input. -/
def takeKey : List Char → List Char × List Char
  | [] => ([], [])
  | c :: cs =>
    if isSpecial c then ([], c :: cs)
    else
      let p := takeKey cs
      (c :: p.1, p.2)

/-- ASCII digit test (the regex class `\d`). -/
def isDigitCh (c : Char) : Bool := '0' ≤ c && c ≤ '9'

/-- Maximal digit prefix (the match of `\d+`), paired with the rest. -/
def takeDigits : List Char → List Char × List Char
  | [] => ([], [])
  | c :: cs =>
    if isDigitCh c then
      let p := takeDigits cs
      (c :: p.1, p.2)
    else ([], c :: cs)

/-- Decimal value of a digit run (`Number.parseInt(digits, 10)`). -/
def digitsToNat : List Char → Nat → Nat
  | [], acc => acc
  | c :: cs, acc => digitsToNat cs (acc * 10 + (c.toNat - 48))

/-- Attempt the bracket alternative `\[(\*|\d+)\]` on the input just after a
`[`.  On success returns the pushed token (`"*"` for a wildcard — the JS code
pushes the string `"*"` — or the parsed integer) and the rest of the input. -/
def tryBracket : List Char → Option (JTok × List Char)
  | '*' :: ']' :: r => some (JTok.s "*", r)
  | cs =>
    match takeDigits cs with
    | ([], _) => none
    | (d :: ds, ']' :: r2) => some (JTok.i (Int.ofNat (digitsToNat (d :: ds) 0)), r2)
    | (_ :: _, _) => none

/-- The `matchAll` loop of `parsePath`.  The fuel argument only serves to make
the recursion structural; each step consumes at least one character, so fuel
equal to the input length (as used by `parsePath`) is never exhausted. -/
def scanPathAux : Nat → List Char → List JTok
  | _, [] => []
  | 0, _ :: _ => []
  | n + 1, c :: cs =>
    if c = '[' then
      match tryBracket cs with
      | some (t, rest) => t :: scanPathAux n rest
      | none => scanPathAux n cs
    else if isSpecial c then scanPathAux n cs
    else
      let p := takeKey (c :: cs)
      JTok.s (String.mk p.1) :: scanPathAux n p.2

/-- `export function parsePath(path)`: `if (!path) return [];` (the only falsy
string is `""`), then the `matchAll` loop pushing key, wildcard and integer
tokens. -/
def parsePath (path : String) : List JTok :=
  if path.data.isEmpty then [] else scanPathAux path.data.length path.data

/-! ## Navigation (`extractValues`) -/

/-- JS property read `item[key]` / `Object.hasOwn(item, key)` on an object:
the value at the key if present (keys are unique in a real JS object; the
first occurrence is taken). -/
def jsObjGet : List (String × Json) → String → Option Json
  | [], _ => none
  | (k, v) :: rest, z => if k = z then some v else jsObjGet rest z

/-- Canonical array-index string: `some i` iff the string is the canonical
decimal representation of `i` (all digits, no leading zeros), the form a JS
array uses for its own index properties. -/
def canonicalNat : String → Option Nat :=
  fun k =>
    match k.data with
    | [] => none
    | cs =>
      if cs.all isDigitCh then
        let n := digitsToNat cs 0
        if Nat.repr n = k then some n else none
      else none

/-- JS own-property read `item[key]` on an *array* for a string key: arrays own
their in-range canonical index strings and the (non-enumerable, but
`Object.hasOwn`-visible) property `"length"`. -/
def jsArrProp (xs : List Json) (k : String) : Option Json :=
  if k = "length" then some (.num xs.length)
  else
    match canonicalNat k with
    | some i => xs.get? i
    | none => none

/-- JS element read `item[n]` on an array for an integer `n`: the element when
`0 ≤ n < length`, otherwise `undefined` (JS arrays do not support negative
indexing through property access). -/
def jsArrGet (xs : List Json) (n : Int) : Json :=
  if 0 ≤ n then
    match xs.get? n.toNat with
    | some v => v
    | none => .undefined
  else .undefined

/-- One navigation step of `extractValues` applied to one working-set value:
the body of the inner `for (const item of values)` loop.

* `token === "*"`: array elements, else object values, else nothing;
* `Number.isInteger(token)`: for an array with `token >= -length && token <
  length`, push `item[token]`; else nothing;
* otherwise (string key): `item && typeof item === "object" &&
  Object.hasOwn(item, token)` — note that a JS *array* also satisfies
  `typeof item === "object"`, so arrays are navigated by key tokens that name
  one of their own properties. -/
def stepTok (t : JTok) (item : Json) : List Json :=
  if t = JTok.s "*" then
    match item with
    | .arr xs => xs
    | .obj es => es.map Prod.snd
    | _ => []
  else
    match t with
    | .i n =>
      match item with
      | .arr xs => if -(xs.length : Int) ≤ n ∧ n < (xs.length : Int) then [jsArrGet xs n] else []
      | _ => []
    | .s k =>
      match item with
      | .obj es =>
        match jsObjGet es k with
        | some v => [v]
        | none => []
      | .arr xs =>
        match jsArrProp xs k with
        | some v => [v]
        | none => []
      | _ => []

/-- The inner loop of `extractValues`: apply one token to every value of the
working set in order, concatenating the emitted values. -/
def concatMapStep (t : JTok) : List Json → List Json
  | [] => []
  | v :: rest => stepTok t v ++ concatMapStep t rest

/-- The outer loop of `extractValues` over the token sequence. -/
def extractTokens : List JTok → List Json → List Json
  | [], values => values
  | t :: rest, values => extractTokens rest (concatMapStep t values)

/-- `export function extractValues(data, path)` for a string path: parse the
path, then run the working-set loop starting from `[data]` (an empty token
sequence yields `[data]`). -/
def extractValues (data : Json) (path : String) : List Json :=
  extractTokens (parsePath path) [data]

/-! ## The dynamically-typed `path` argument.

`extractValues` always begins with `const tokens = parsePath(path)`, and
`parsePath` calls `path.matchAll(...)` whenever `path` is truthy.  A token
*array* (even an empty one) is truthy in JS and has no `matchAll` method, so
passing an already-parsed token sequence throws a `TypeError`. -/

/-- The `path` argument as a JS value: a raw string or a token array. -/
inductive PathArg where
  | ofString (s : String)
  | ofTokens (ts : List JTok)

/-- JS truthiness of the `path` argument: `""` is falsy, every array
(including `[]`) is truthy. -/
def pathArgTruthy : PathArg → Bool
  | .ofString s => !s.data.isEmpty
  | .ofTokens _ => true

/-- `parsePath` on a dynamically-typed argument, with the `TypeError` raised by
`path.matchAll` on a non-string modelled as an `Except.error`. -/
def parsePathDyn (p : PathArg) : Except String (List JTok) :=
  if pathArgTruthy p then
    match p with
    | .ofString s => .ok (scanPathAux s.data.length s.data)
    | .ofTokens _ => .error "TypeError: path.matchAll is not a function"
  else .ok []

/-- `extractValues` on a dynamically-typed `path` argument. -/
def extractValuesDyn (data : Json) (p : PathArg) : Except String (List Json) :=
  match parsePathDyn p with
  | .ok ts => .ok (extractTokens ts [data])
  | .error e => .error e

/-! ## Record-set resolution (`resolveArray`) -/

/-- `Array.isArray`. -/
def isJsArr : Json → Bool
  | .arr _ => true
  | _ => false

/-- `value && typeof value === "object" && !Array.isArray(value)`: a mapping. -/
def isJsMapping : Json → Bool
  | .obj _ => true
  | _ => false

/-- Truthiness of the optional `arrayPath` argument (`undefined`/`null`
modelled as `none`; the only falsy string is `""`). -/
def optTruthy : Option String → Bool
  | none => false
  | some s => !s.data.isEmpty

/-- `export function resolveArray(data, arrayPath)`: with a truthy path,
evaluate it and return the first result that is an array; failing that, the
values of the first result that is a mapping (object-of-objects fallback);
failing that `[]`.  With a falsy path, return `data` itself if it is an array
and `[]` otherwise. -/
def resolveArray (data : Json) (arrayPath : Option String) : List Json :=
  if optTruthy arrayPath = true then
    let values := extractValues data (arrayPath.getD "")
    match values.find? isJsArr with
    | some (.arr xs) => xs
    | _ =>
      match values.find? isJsMapping with
      | some (.obj es) => es.map Prod.snd
      | _ => []
  else
    match data with
    | .arr xs => xs
    | _ => []

/-! ## Structural flattener (`flattenJson`)

The JS implementation builds the output object by assignment
(`output[prefix] = v`) during a recursive walk.  Assignment to a JS object
updates an existing key in place (keeping its position) and appends a fresh
key; `jsSet` models exactly that. -/

/-- JS object assignment `out[k] = v`: update in place if the key exists,
otherwise append. -/
def jsSet : List (String × Json) → String → Json → List (String × Json)
  | [], k, v => [(k, v)]
  | (k0, v0) :: rest, k, v =>
    if k0 = k then (k0, v) :: rest else (k0, v0) :: jsSet rest k v

/-- `item && typeof item === "object"`: a composite (array or mapping). -/
def jsIsComposite : Json → Bool
  | .arr _ => true
  | .obj _ => true
  | _ => false

/-- `value.every((item) => !(item && typeof item === "object"))`. -/
def allScalars (xs : List Json) : Bool := xs.all (fun x => !jsIsComposite x)

mutual

/-- The recursive `walk(value, prefix)` of `flattenJson`, with the mutable
`output` object threaded explicitly.

* non-empty mapping: recurse per entry with the prefix extended by
  `separator + key` (just `key` on an empty prefix);
* empty mapping: `output[prefix] = {}` — but only when `prefix` is truthy;
* array, mode `"ignore"`: `output[prefix] = value`;
* array, mode `"expand"` with only scalar elements: `output[prefix] = value`;
* other arrays: `forEach` per element (prefix handling in `walkArr`), then
  `output[prefix] = []` for an empty array under a truthy prefix;
* anything else (scalar): `output[prefix] = value`. -/
def walkFlat (sep mode : String) : Json → String → List (String × Json) → List (String × Json)
  | .obj [], pfx, out => if pfx ≠ "" then jsSet out pfx (.obj []) else out
  | .obj (e :: es), pfx, out => walkObj sep mode (e :: es) pfx out
  | .arr xs, pfx, out =>
    if mode = "ignore" then jsSet out pfx (.arr xs)
    else if mode = "expand" ∧ allScalars xs = true then jsSet out pfx (.arr xs)
    else
      match xs with
      | [] => if pfx ≠ "" then jsSet out pfx (.arr []) else out
      | y :: ys => walkArr sep mode (y :: ys) 0 pfx out
  | v, pfx, out => jsSet out pfx v

/-- The `for (const [key, inner] of Object.entries(value))` loop. -/
def walkObj (sep mode : String) : List (String × Json) → String → List (String × Json) → List (String × Json)
  | [], _, out => out
  | (k, v) :: rest, pfx, out =>
    walkObj sep mode rest pfx
      (walkFlat sep mode v (if pfx ≠ "" then pfx ++ sep ++ k else k) out)

/-- The `value.forEach((inner, idx) => ...)` loop: in mode `"expand"` the
prefix is passed through unchanged, otherwise it is extended by `[idx]`. -/
def walkArr (sep mode : String) : List Json → Nat → String → List (String × Json) → List (String × Json)
  | [], _, _, out => out
  | x :: rest, idx, pfx, out =>
    walkArr sep mode rest (idx + 1) pfx
      (walkFlat sep mode x
        (if mode = "expand" then pfx
         else if pfx ≠ "" then pfx ++ "[" ++ Nat.repr idx ++ "]"
         else "[" ++ Nat.repr idx ++ "]")
        out)

end

/-- `export function flattenJson(data, separator = ".", arrayMode = "index")`. -/
def flattenJson (data : Json) (sep mode : String) : List (String × Json) :=
  walkFlat sep mode data "" []

/-! ## Type/value normalizer -/

/-- `export function typeName(value)`.  Numbers are modelled as integers, for
which `Number.isInteger` is true, hence the tag `"int"`. -/
def typeName : Json → String
  | .null => "null"
  | .undefined => "undefined"
  | .bool _ => "bool"
  | .num _ => "int"
  | .str _ => "string"
  | .arr _ => "array"
  | .obj _ => "object"

/-- Comma-join of already-rendered strings (`Array.prototype.join(",")`). -/
def joinComma : List String → String
  | [] => ""
  | [s] => s
  | s :: t :: rest => s ++ "," ++ joinComma (t :: rest)

mutual

/-- JS string coercion `String(value)` for the values of the model:
numbers print in decimal, strings pass through, booleans as `true`/`false`,
arrays via `Array.prototype.toString` (comma-join, with `null`/`undefined`
elements rendered empty), plain objects as `"[object Object]"`. -/
def jsStringCoerce : Json → String
  | .null => "null"
  | .undefined => "undefined"
  | .bool true => "true"
  | .bool false => "false"
  | .num n => n.repr
  | .str s => s
  | .obj _ => "[object Object]"
  | .arr xs => joinComma (jsArrStrs xs)

/-- The rendered `join` elements of an array: `null` and `undefined` render as
the empty string, every other element via `String(element)`. -/
def jsArrStrs : List Json → List String
  | [] => []
  | .null :: rest => "" :: jsArrStrs rest
  | .undefined :: rest => "" :: jsArrStrs rest
  | x :: rest => jsStringCoerce x :: jsArrStrs rest

end

/-- `function pyScalarString(value)`: `null`/`true`/`false` take Python-style
spellings, everything else falls back to `String(value)`. -/
def pyScalarString (v : Json) : String :=
  match v with
  | .null => "None"
  | .bool true => "True"
  | .bool false => "False"
  | v => jsStringCoerce v

/-! ## Stable key-sorted form (`stableSortKeys`) and canonical serialization -/

/-- Character-wise string comparison: true iff `a` precedes or equals `b` in
lexicographic character order (what JS `Array.prototype.sort()`'s default
comparator uses on key strings). -/
def charListLe : List Char → List Char → Bool
  | [], _ => true
  | _ :: _, [] => false
  | a :: as, b :: bs => if a = b then charListLe as bs else decide (a < b)

/-- The string order used to sort object keys. -/
def strLeB (a b : String) : Bool := charListLe a.data b.data

/-- The key order as a relation, for use with `List.insertionSort`. -/
def strLeRel (a b : String) : Prop := strLeB a b = true

instance : DecidableRel strLeRel := fun a b => instDecidableEqBool (strLeB a b) true

/-- `Object.keys(value).sort()`: the keys in ascending order.  (JS `.sort()`
is a stable sort, but object keys are unique, so any sorting algorithm
produces this result.) -/
def sortedKeys (es : List (String × Json)) : List String :=
  List.insertionSort strLeRel (es.map Prod.fst)

/-- The `for (const key of Object.keys(value).sort()) out[key] = ...` loop:
rebuild the entry list in ascending key order, reading each value back by
key. -/
def sortEntries (es : List (String × Json)) : List (String × Json) :=
  (sortedKeys es).map (fun k => (k, (jsObjGet es k).getD Json.null))

mutual

/-- `function stableSortKeys(value)`: arrays map recursively, objects are
rebuilt with keys sorted (recursing into each value), scalars pass through. -/
def stableSortKeys : Json → Json
  | .arr xs => .arr (sskArr xs)
  | .obj es => .obj (sortEntries (sskObj es))
  | v => v

/-- `value.map(stableSortKeys)`. -/
def sskArr : List Json → List Json
  | [] => []
  | x :: rest => stableSortKeys x :: sskArr rest

/-- Recursion of `stableSortKeys` into the values of an object.  (Applying the
recursion before sorting is equivalent to the source's sort-then-recurse:
`jsObjGet` commutes with mapping over values.) -/
def sskObj : List (String × Json) → List (String × Json)
  | [] => []
  | (k, v) :: rest => (k, stableSortKeys v) :: sskObj rest

end

/-- Lower-case hexadecimal digit, for `JSON.stringify` control escapes. -/
def hexDigit (n : Nat) : Char :=
  if n < 10 then Char.ofNat (48 + n) else Char.ofNat (87 + n)

/-- `JSON.stringify` escaping of one string character. -/
def jsEscapeChar (c : Char) : String :=
  if c = '"' then "\\\""
  else if c = '\\' then "\\\\"
  else if c = '\n' then "\\n"
  else if c = '\r' then "\\r"
  else if c = '\t' then "\\t"
  else if c = Char.ofNat 8 then "\\b"
  else if c = Char.ofNat 12 then "\\f"
  else if c.toNat < 32 then
    "\\u00" ++ String.mk [hexDigit (c.toNat / 16), hexDigit (c.toNat % 16)]
  else String.mk [c]

/-- `JSON.stringify` escaping of a string body. -/
def jsEscape (s : String) : String := String.join (s.data.map jsEscapeChar)

mutual

/-- `JSON.stringify(value)` (no indentation): the compact canonical JSON text.
(`undefined` cannot appear in a parsed document; inside an array
`JSON.stringify` renders it as `null`.) -/
def jsonStringify : Json → String
  | .null => "null"
  | .undefined => "null"
  | .bool true => "true"
  | .bool false => "false"
  | .num n => n.repr
  | .str s => "\"" ++ jsEscape s ++ "\""
  | .arr xs => "[" ++ stringifyArr xs ++ "]"
  | .obj es => "\x7b" ++ stringifyObj es ++ "\x7d"

/-- Comma-separated `JSON.stringify` of array elements. -/
def stringifyArr : List Json → String
  | [] => ""
  | [x] => jsonStringify x
  | x :: y :: rest => jsonStringify x ++ "," ++ stringifyArr (y :: rest)

/-- Comma-separated `JSON.stringify` of object entries. -/
def stringifyObj : List (String × Json) → String
  | [] => ""
  | [(k, v)] => "\"" ++ jsEscape k ++ "\":" ++ jsonStringify v
  | (k, v) :: e :: rest =>
    "\"" ++ jsEscape k ++ "\":" ++ jsonStringify v ++ "," ++ stringifyObj (e :: rest)

end

/-- The spec's `stableKey`: the canonical string the engine uses for
deduplication and grouping, realized in the source as
`JSON.stringify(stableSortKeys(value))` (the normalization in `frequency`). -/
def stableKey (v : Json) : String := jsonStringify (stableSortKeys v)

/-- The normalization applied by `frequency` to each value: composites
(`value && typeof value === "object"`) canonicalize through
`JSON.stringify(stableSortKeys(value))`, scalars through `pyScalarString`. -/
def freqKey (v : Json) : String :=
  if jsIsComposite v then jsonStringify (stableSortKeys v) else pyScalarString v

/-- `counts.set(normalized, (counts.get(normalized) ?? 0) + 1)` on an
insertion-ordered map. -/
def bumpCount : List (String × Nat) → String → List (String × Nat)
  | [], k => [(k, 1)]
  | (k0, c) :: rest, k =>
    if k0 = k then (k0, c + 1) :: rest else (k0, c) :: bumpCount rest k

/-- `export function frequency(values)`: count normalized keys in a `Map`
(insertion-ordered). -/
def frequency (values : List Json) : List (String × Nat) :=
  values.foldl (fun counts v => bumpCount counts (freqKey v)) []

/-! ## Auxiliary notions used only to state claims -/

/-- Well-formedness of a produced token: a key token is non-empty and free of
`.`/`[`/`]`; an index token is non-negative. -/
def validTokB : JTok → Bool
  | .s k => !k.data.isEmpty && k.data.all (fun c => !isSpecial c)
  | .i n => decide (0 ≤ n)

/-- Canonical text of one token (`[n]` for indices, the key itself
otherwise). -/
def renderTok : JTok → String
  | .s k => k
  | .i n => "[" ++ n.repr ++ "]"

/-- Canonical path text of a token sequence: tokens concatenated, with a `.`
separator between two adjacent key tokens. -/
def renderTokens : List JTok → String
  | [] => ""
  | [t] => renderTok t
  | t :: t2 :: rest =>
    renderTok t ++ (match t, t2 with | .s _, .s _ => "." | _, _ => "") ++
      renderTokens (t2 :: rest)

/-- Structural equality of two values in the sense of the spec: same type
tree, same keys and values, ignoring only the order of mapping entries
(adjacent transposition of distinct keys, congruence, and transitivity). -/
inductive StructEq : Json → Json → Prop where
  | null : StructEq .null .null
  | undefined : StructEq .undefined .undefined
  | bool (b : Bool) : StructEq (.bool b) (.bool b)
  | num (n : Int) : StructEq (.num n) (.num n)
  | str (s : String) : StructEq (.str s) (.str s)
  | arrNil : StructEq (.arr []) (.arr [])
  | arrCons {x y : Json} {xs ys : List Json} :
      StructEq x y → StructEq (.arr xs) (.arr ys) →
      StructEq (.arr (x :: xs)) (.arr (y :: ys))
  | objNil : StructEq (.obj []) (.obj [])
  | objCons (k : String) {x y : Json} {es fs : List (String × Json)} :
      StructEq x y → StructEq (.obj es) (.obj fs) →
      StructEq (.obj ((k, x) :: es)) (.obj ((k, y) :: fs))
  | objSwap (k₁ k₂ : String) (x₁ x₂ : Json) (es : List (String × Json)) :
      k₁ ≠ k₂ →
      StructEq (.obj ((k₁, x₁) :: (k₂, x₂) :: es)) (.obj ((k₂, x₂) :: (k₁, x₁) :: es))
  | trans {a b c : Json} : StructEq a b → StructEq b c → StructEq a c

/-- The document of the spec's `resolveArray` example:
`{"a":{"x":1},"b":{"y":2}}`. -/
def docAB : Json :=
  .obj [("a", .obj [("x", .num 1)]), ("b", .obj [("y", .num 2)])]

/-- The document of the spec's `expand`-mode flatten example:
`{"a":[{"x":1}]}`. -/
def docAX : Json := .obj [("a", .arr [.obj [("x", .num 1)]])]

/-! # Theorems -/

/-- C1: evaluation of the code at the claim's inputs.  The regex only admits
`\d+` inside brackets, so `"[-1]"` lexes to the mapping-key token `"-1"`
(the `[` fails to match and `-1` is re-scanned by the key alternative), which
no array owns; both `"[-1]"` and `"[-4]"` therefore extract nothing from
`[10,20,30]`, where the specified behaviour is `[30]` for `"[-1]"`.  (The
navigation guard `token >= -item.length` in the source anticipates negative
index tokens, but the parser can never produce one.) -/
theorem c1_negative_index_eval :
    parsePath "[-1]" = [JTok.s "-1"] ∧
    extractValues (.arr [.num 10, .num 20, .num 30]) "[-1]" = [] ∧
    extractValues (.arr [.num 10, .num 20, .num 30]) "[-4]" = [] :=
  ⟨by decide, rfl, rfl⟩

/-- C2 counterexample: a key token *does* navigate into an array when it names
one of the array's own index properties: `extractValues([10,20], "0")`
returns `[10]`, not the empty result the claim asserts. -/
theorem c2_counterexample :
    extractValues (.arr [.num 10, .num 20]) "0" = [.num 10] ∧
    extractValues (.arr [.num 10, .num 20]) "0" ≠ [] := by
  refine ⟨rfl, fun h => ?_⟩
  exact absurd (congrArg List.length h) (by decide)

/-- C3 counterexample: the unterminated bracket in `"a[1"` is not surfaced as
a parse failure: `parsePath` silently drops the `[` and recovers `1` as a key
token, returning the same token sequence as the well-formed path `"a.1"`; in
particular the result does not cover the input (`renderTokens` re-renders it
as `"a.1"`). -/
theorem c3_counterexample :
    parsePath "a[1" = [JTok.s "a", JTok.s "1"] ∧
    parsePath "a[1" = parsePath "a.1" ∧
    renderTokens (parsePath "a[1") ≠ "a[1" := by
  refine ⟨by decide, by decide, by decide⟩

/-- C4 counterexample: `resolveArray({"a":{"x":1},"b":{"y":2}}, "a")` is not
the empty sequence. -/
theorem c4_counterexample : resolveArray docAB (some "a") ≠ [] := by
  intro h
  exact absurd (congrArg List.length h) (by decide)

/-- C4 (amended): the path `"a"` resolves to the mapping `{"x":1}`; no result
is an array, so the object fallback of `resolveArray` fires and returns that
mapping's values, i.e. `[1]`. -/
theorem c4_object_fallback : resolveArray docAB (some "a") = [.num 1] := rfl

/-- C5 counterexample: in mode `"expand"` an array with a composite element is
expanded per element but *without* extending the prefix by `[i]`: flattening
`{"a":[{"x":1}]}` gives key `"a.x"`, whereas mode-`"index"` behaviour (which
the claim asserts) gives `"a[0].x"`. -/
theorem c5_counterexample :
    flattenJson docAX "." "expand" = [("a.x", .num 1)] ∧
    flattenJson docAX "." "index" = [("a[0].x", .num 1)] ∧
    ("a.x" : String) ≠ "a[0].x" :=
  ⟨rfl, rfl, by decide⟩

/-- C6 counterexample: passing an (empty) already-parsed token sequence to
`extractValues` does not complete normally: `parsePath` invokes
`path.matchAll` on it, which throws a `TypeError`. -/
theorem c6_counterexample :
    extractValuesDyn .null (.ofTokens []) =
      .error "TypeError: path.matchAll is not a function" := rfl

/-- C7 counterexample: a top-level empty mapping produces *no* output entry:
`flattenJson({}, ".", "index")` is the empty mapping, not the claimed
`{"": {}}`. -/
theorem c7_counterexample :
    flattenJson (.obj []) "." "index" = [] ∧
    ([] : List (String × Json)) ≠ [("", Json.obj [])] := by
  refine ⟨rfl, fun h => ?_⟩
  exact absurd (congrArg List.length h) (by decide)

/-- C9: the scalar normalization `pyScalarString` is not injective across
`typeName` tags: `true` and `"True"`, `1` and `"1"`, `null` and `"None"`
normalize identically while their type tags differ, so `frequency` counts
each such pair in a single bucket. -/
theorem c9_normalization_collisions :
    pyScalarString (.bool true) = pyScalarString (.str "True") ∧
    typeName (.bool true) ≠ typeName (.str "True") ∧
    pyScalarString (.num 1) = pyScalarString (.str "1") ∧
    typeName (.num 1) ≠ typeName (.str "1") ∧
    pyScalarString .null = pyScalarString (.str "None") ∧
    typeName .null ≠ typeName (.str "None") ∧
    frequency [.bool true, .str "True"] = [("True", 2)] ∧
    frequency [.num 1, .str "1"] = [("1", 2)] ∧
    frequency [.null, .str "None"] = [("None", 2)] := by
  refine ⟨rfl, by decide, rfl, by decide, rfl, by decide, by decide, by decide, by decide⟩

/-- C10: `resolveArray` under an empty-string `arrayPath` behaves exactly as
under an absent path: the empty string is falsy, so the document itself is
returned when it is an array and the empty sequence otherwise; the
object-of-objects fallback is never consulted. -/
theorem c10_empty_arraypath (D : Json) :
    resolveArray D (some "") = resolveArray D none ∧
    resolveArray D (some "") = (match D with | .arr xs => xs | _ => []) := by
  refine ⟨rfl, ?_⟩
  cases D <;> rfl

/-- Unfolding of `validTokB` on a freshly-built key token. -/
theorem validTokB_key (l : List Char) :
    validTokB (JTok.s (String.mk l)) = (!l.isEmpty && l.all (fun c => !isSpecial c)) := rfl

/-- Every character of a key match is non-special. -/
theorem takeKey_all_nonspecial : ∀ (l : List Char), ∀ c ∈ (takeKey l).1, isSpecial c = false := by
  intro l
  induction l with
  | nil => intro c hc; simp [takeKey] at hc
  | cons a as ih =>
    intro c hc
    cases ha : isSpecial a with
    | true => simp [takeKey, ha] at hc
    | false =>
      simp only [takeKey, ha, Bool.false_eq_true, if_false] at hc
      rcases List.mem_cons.mp hc with h | h
      · rw [h]; exact ha
      · exact ih c h

/-- On an input of non-special characters, the key match is maximal: it
consumes everything. -/
theorem takeKey_of_nonspecial : ∀ (l : List Char), (∀ c ∈ l, isSpecial c = false) → takeKey l = (l, []) := by
  intro l
  induction l with
  | nil => intro _; rfl
  | cons a as ih =>
    intro h
    have ha : isSpecial a = false := h a (by simp)
    simp [takeKey, ha, ih (fun c hc => h c (List.mem_cons_of_mem a hc))]

/-- A successful bracket match yields a well-formed token (the wildcard key
`"*"` or a non-negative index). -/
theorem tryBracket_valid (cs : List Char) (t : JTok) (r : List Char)
    (h : tryBracket cs = some (t, r)) : validTokB t = true := by
  unfold tryBracket at h
  split at h
  · cases h; decide
  · split at h
    · exact absurd h (by simp)
    · cases h
      simp only [validTokB]
      simp [Int.ofNat_nonneg]
    · exact absurd h (by simp)

/-- Every token produced by the `matchAll` loop is well-formed. -/
theorem scanPathAux_valid : ∀ (n : Nat) (l : List Char) (t : JTok),
    t ∈ scanPathAux n l → validTokB t = true := by
  intro n
  induction n with
  | zero => intro l t h; cases l <;> simp [scanPathAux] at h
  | succ n ih =>
    intro l t h
    cases l with
    | nil => simp [scanPathAux] at h
    | cons c cs =>
      rw [scanPathAux] at h
      by_cases hc : c = '['
      · rw [if_pos hc] at h
        cases htb : tryBracket cs with
        | none => rw [htb] at h; exact ih cs t h
        | some pr =>
          obtain ⟨t0, rest⟩ := pr
          rw [htb] at h
          rcases List.mem_cons.mp h with he | he
          · rw [he]; exact tryBracket_valid cs t0 rest htb
          · exact ih rest t he
      · rw [if_neg hc] at h
        by_cases hs : isSpecial c = true
        · rw [if_pos hs] at h; exact ih cs t h
        · rw [if_neg hs] at h
          have hs' : isSpecial c = false := by simpa using hs
          have hk : takeKey (c :: cs) = (c :: (takeKey cs).1, (takeKey cs).2) := by
            simp [takeKey, hs']
          rcases List.mem_cons.mp h with he | he
          · rw [he, hk, validTokB_key]
            simp only [List.isEmpty_cons, Bool.not_false, Bool.true_and, List.all_eq_true]
            intro x hx
            have := takeKey_all_nonspecial (c :: cs) x (by rw [hk]; exact hx)
            simp [this]
          · exact ih _ t he

/-- C3 (amended): `parsePath` is total and never fails — every input string
yields a sequence of well-formed tokens (non-empty special-free keys,
non-negative indices).  A malformed token such as the unterminated bracket in
`"a[1"` is *not* surfaced as a parse failure: per `c3_counterexample` its `[`
is silently dropped and its content re-parsed, so the result need not cover
the input. -/
theorem c3_tokens_valid (s : String) (t : JTok) (h : t ∈ parsePath s) :
    validTokB t = true := by
  unfold parsePath at h
  split at h
  · simp at h
  · exact scanPathAux_valid _ _ _ h

/-- C3 witness: the theorem applied to the malformed input `"a[1"` and its
first recovered token. -/
theorem c3_witness : JTok.s "a" ∈ parsePath "a[1" ∧ validTokB (JTok.s "a") = true :=
  ⟨by decide, c3_tokens_valid "a[1" (JTok.s "a") (by decide)⟩

/-- A path consisting of one non-empty special-free key parses to exactly that
key token (maximal munch of the first regex alternative). -/
theorem scanPathAux_single (c : Char) (cs : List Char)
    (h : ∀ x ∈ c :: cs, isSpecial x = false) :
    scanPathAux (cs.length + 1) (c :: cs) = [JTok.s (String.mk (c :: cs))] := by
  have hc0 : isSpecial c = false := h c (by simp)
  have hc : ¬(c = '[') := by
    intro he; subst he; simp [isSpecial] at hc0
  rw [scanPathAux, if_neg hc, if_neg (by simp [hc0])]
  rw [takeKey_of_nonspecial (c :: cs) h]
  simp [scanPathAux]

/-- `parsePath` of a single non-empty special-free key. -/
theorem parsePath_single_key (k : String) (h1 : k.data ≠ [])
    (h2 : ∀ c ∈ k.data, isSpecial c = false) : parsePath k = [JTok.s k] := by
  unfold parsePath
  rw [if_neg (by simpa using h1)]
  cases hd : k.data with
  | nil => exact absurd hd h1
  | cons c cs =>
    have hk2 : String.mk (c :: cs) = k := by rw [← hd]
    rw [List.length_cons, scanPathAux_single c cs (hd ▸ h2), hk2]

/-- C2 (amended): a key token matches every working-set value that is a
mapping containing that key *and also* every array that owns that string as a
property (an in-range canonical index string or `"length"`); scalars
contribute nothing.  In particular `extractValues([10,20], "0") = [10]`,
not `[]` as the claim states. -/
theorem c2_key_token_nav (k : String) (v : Json) (h1 : k.data ≠ [])
    (h2 : ∀ c ∈ k.data, isSpecial c = false) (h3 : k ≠ "*") :
    extractValues v k =
      (match v with
        | .obj es => (match jsObjGet es k with | some w => [w] | none => [])
        | .arr xs => (match jsArrProp xs k with | some w => [w] | none => [])
        | _ => []) ∧
    extractValues (.arr [.num 10, .num 20]) "0" = [.num 10] := by
  refine ⟨?_, rfl⟩
  unfold extractValues
  rw [parsePath_single_key k h1 h2]
  simp only [extractTokens, concatMapStep, List.append_nil]
  unfold stepTok
  rw [if_neg (fun e => h3 (by injection e))]

/-- C2 witness: the theorem applied to the array `[10,20]` and the key token
`"0"`. -/
theorem c2_witness :
    ("0" : String).data ≠ [] ∧ (∀ c ∈ ("0" : String).data, isSpecial c = false) ∧
    ("0" : String) ≠ "*" ∧
    extractValues (.arr [.num 10, .num 20]) "0" = [.num 10] :=
  ⟨by decide, by decide, by decide,
    (c2_key_token_nav "0" (.arr [.num 10, .num 20]) (by decide) (by decide) (by decide)).2⟩

/-- In mode `"expand"` the element loop passes the prefix through unchanged
(and the running index is irrelevant). -/
theorem walkArr_expand (sep : String) :
    ∀ (xs : List Json) (i : Nat) (pfx : String) (out : List (String × Json)),
      walkArr sep "expand" xs i pfx out =
        xs.foldl (fun acc x => walkFlat sep "expand" x pfx acc) out := by
  intro xs
  induction xs with
  | nil => intro i pfx out; rfl
  | cons x rest ih =>
    intro i pfx out
    rw [walkArr, if_pos rfl, List.foldl_cons]
    exact ih (i + 1) pfx _

/-- C5 (amended): in mode `"expand"`, an array containing a composite element
does fall through to per-element expansion, but *not* with mode-`"index"`
prefixing: every element is recursed with the accumulated prefix unchanged
(no `[i]` is appended), so sibling elements can collide on output keys. -/
theorem c5_expand_fallthrough (sep pfx : String) (xs : List Json)
    (out : List (String × Json)) (h : allScalars xs = false) :
    walkFlat sep "expand" (.arr xs) pfx out =
      xs.foldl (fun acc x => walkFlat sep "expand" x pfx acc) out := by
  cases xs with
  | nil => simp [allScalars] at h
  | cons y ys =>
    rw [walkFlat, if_neg (by decide : ¬(("expand" : String) = "ignore")),
      if_neg (by simp [h])]
    exact walkArr_expand sep (y :: ys) 0 pfx out

/-- C5 witness: the theorem applied to the array `[{"x":1}]` (whose element is
composite), at prefix `"a"`. -/
theorem c5_witness :
    allScalars [Json.obj [("x", Json.num 1)]] = false ∧
    walkFlat "." "expand" (.arr [Json.obj [("x", Json.num 1)]]) "a" [] =
      List.foldl (fun acc x => walkFlat "." "expand" x "a" acc) []
        [Json.obj [("x", Json.num 1)]] :=
  ⟨rfl, c5_expand_fallthrough "." "a" [Json.obj [("x", Json.num 1)]] [] rfl⟩

/-- C7 (amended): every terminal node writes through a single `jsSet` (so no
node contributes to two different output keys), with these entries: an empty
mapping reached at a *non-empty* prefix `p` yields `p ↦ {}`, an empty array at
a non-empty prefix yields `p ↦ []` (in every array mode), a scalar yields
`p ↦ value` including at top level; but a top-level empty mapping yields *no*
entry, and a top-level empty array yields an entry (`"" ↦ []`) only in modes
`"ignore"` and `"expand"`, not in mode `"index"`. -/
theorem c7_terminal_nodes (sep mode p : String) (out : List (String × Json))
    (v : Json) (hp : p ≠ "") (hv : jsIsComposite v = false) :
    flattenJson (.obj []) sep mode = [] ∧
    flattenJson (.arr []) sep mode =
      (if mode = "ignore" ∨ mode = "expand" then [("", Json.arr [])] else []) ∧
    flattenJson v sep mode = [("", v)] ∧
    walkFlat sep mode (.obj []) p out = jsSet out p (.obj []) ∧
    walkFlat sep mode (.arr []) p out = jsSet out p (.arr []) ∧
    walkFlat sep mode v p out = jsSet out p v := by
  constructor
  · simp [flattenJson, walkFlat]
  constructor
  · by_cases m1 : mode = "ignore"
    · simp [flattenJson, walkFlat, m1, jsSet]
    · by_cases m2 : mode = "expand"
      · simp [flattenJson, walkFlat, m1, m2, allScalars, jsSet]
      · simp [flattenJson, walkFlat, m1, m2, jsSet]
  constructor
  · cases v <;> simp_all [flattenJson, walkFlat, jsIsComposite, jsSet]
  constructor
  · simp [walkFlat, hp]
  constructor
  · by_cases m1 : mode = "ignore"
    · simp [walkFlat, m1]
    · by_cases m2 : mode = "expand"
      · simp [walkFlat, m1, m2, allScalars]
      · simp [walkFlat, m1, m2, hp]
  · cases v <;> simp_all [walkFlat, jsIsComposite]

/-- C7 witness: the theorem applied at separator `"."`, mode `"index"`,
prefix `"k"`, a non-empty accumulated output, and the scalar `7`. -/
theorem c7_witness :
    ("k" : String) ≠ "" ∧
    (flattenJson (.obj []) "." "index" = [] ∧
     flattenJson (.arr []) "." "index" =
       (if ("index" : String) = "ignore" ∨ ("index" : String) = "expand"
        then [("", Json.arr [])] else []) ∧
     flattenJson (.num 7) "." "index" = [("", Json.num 7)] ∧
     walkFlat "." "index" (.obj []) "k" [("z", Json.null)] =
       jsSet [("z", Json.null)] "k" (.obj []) ∧
     walkFlat "." "index" (.arr []) "k" [("z", Json.null)] =
       jsSet [("z", Json.null)] "k" (.arr []) ∧
     walkFlat "." "index" (.num 7) "k" [("z", Json.null)] =
       jsSet [("z", Json.null)] "k" (.num 7)) :=
  ⟨by decide,
    c7_terminal_nodes "." "index" "k" [("z", Json.null)] (.num 7) (by decide) rfl⟩

/-- C6 (amended): for every document and every *raw string* path, evaluation
completes normally — the result is `ok` (empty when nothing matches, never an
error); but an already-parsed token sequence is not accepted: `parsePath`
calls `path.matchAll` on it and a `TypeError` is raised (see
`c6_counterexample`). -/
theorem c6_string_paths_never_throw :
    (∀ (data : Json) (s : String),
      extractValuesDyn data (.ofString s) = .ok (extractValues data s)) ∧
    (∀ (data : Json) (ts : List JTok),
      extractValuesDyn data (.ofTokens ts) =
        .error "TypeError: path.matchAll is not a function") := by
  constructor
  · intro data s
    unfold extractValuesDyn parsePathDyn pathArgTruthy extractValues parsePath
    cases he : s.data.isEmpty <;> simp [he]
  · intro data ts; rfl

/-- Pointwise congruence for `List.map`. -/
theorem listMap_congr {α β : Type} {l : List α} {f g : α → β}
    (h : ∀ x ∈ l, f x = g x) : l.map f = l.map g := by
  induction l with
  | nil => rfl
  | cons a as ih =>
    simp only [List.map_cons, h a (by simp)]
    rw [ih (fun x hx => h x (List.mem_cons_of_mem a hx))]

/-- Two equal maps over the same list agree pointwise on its members. -/
theorem listMap_pointwise {α β : Type} {l : List α} {f g : α → β}
    (h : l.map f = l.map g) : ∀ x ∈ l, f x = g x := by
  induction l with
  | nil => intro x hx; simp at hx
  | cons a as ih =>
    simp only [List.map_cons, List.cons.injEq] at h
    intro x hx
    rcases List.mem_cons.mp hx with he | he
    · rw [he]; exact h.1
    · exact ih h.2 x he

/-- Totality of the key order. -/
theorem charListLe_total : ∀ (as bs : List Char),
    charListLe as bs = true ∨ charListLe bs as = true := by
  intro as
  induction as with
  | nil => intro bs; left; rfl
  | cons a as ih =>
    intro bs
    cases bs with
    | nil => right; rfl
    | cons b bs =>
      by_cases hab : a = b
      · rcases ih bs with h | h
        · left; simp [charListLe, hab, h]
        · right; simp [charListLe, hab.symm, h]
      · have hba : ¬(b = a) := fun e => hab e.symm
        rcases lt_or_gt_of_ne hab with hlt | hgt
        · left; simp [charListLe, hab, hlt]
        · right; simp [charListLe, hba, hgt]

/-- Transitivity of the key order. -/
theorem charListLe_trans : ∀ (as bs cs : List Char),
    charListLe as bs = true → charListLe bs cs = true → charListLe as cs = true := by
  intro as
  induction as with
  | nil => intro bs cs _ _; rfl
  | cons a as ih =>
    intro bs cs h1 h2
    cases bs with
    | nil => simp [charListLe] at h1
    | cons b bs =>
      cases cs with
      | nil => simp [charListLe] at h2
      | cons c cs =>
        by_cases hab : a = b <;> by_cases hbc : b = c
        · subst hab; subst hbc
          simp only [charListLe, if_pos rfl] at h1 h2 ⊢
          exact ih bs cs h1 h2
        · subst hab
          simp only [charListLe, if_neg hbc, decide_eq_true_eq] at h2
          simp only [charListLe]
          rw [if_neg hbc]
          simpa using h2
        · subst hbc
          simp only [charListLe, if_neg hab, decide_eq_true_eq] at h1
          simp only [charListLe]
          rw [if_neg hab]
          simpa using h1
        · simp only [charListLe, if_neg hab, decide_eq_true_eq] at h1
          simp only [charListLe, if_neg hbc, decide_eq_true_eq] at h2
          have hac : a < c := lt_trans h1 h2
          simp only [charListLe]
          rw [if_neg (ne_of_lt hac)]
          simpa using hac

/-- Antisymmetry of the key order. -/
theorem charListLe_antisymm : ∀ (as bs : List Char),
    charListLe as bs = true → charListLe bs as = true → as = bs := by
  intro as
  induction as with
  | nil =>
    intro bs _ h2
    cases bs with
    | nil => rfl
    | cons b bs => simp [charListLe] at h2
  | cons a as ih =>
    intro bs h1 h2
    cases bs with
    | nil => simp [charListLe] at h1
    | cons b bs =>
      by_cases hab : a = b
      · rw [hab]
        simp only [charListLe, if_pos hab] at h1
        simp only [charListLe, if_pos hab.symm] at h2
        rw [ih bs h1 h2]
      · have hba : ¬(b = a) := fun e => hab e.symm
        simp only [charListLe, if_neg hab, decide_eq_true_eq] at h1
        simp only [charListLe, if_neg hba, decide_eq_true_eq] at h2
        exact absurd h2 (lt_asymm h1)

instance : IsTotal String strLeRel :=
  ⟨fun a b => charListLe_total a.data b.data⟩

instance : IsTrans String strLeRel :=
  ⟨fun a b c h1 h2 => charListLe_trans a.data b.data c.data h1 h2⟩

instance : IsAntisymm String strLeRel :=
  ⟨fun a b h1 h2 => by
    have hd := charListLe_antisymm a.data b.data h1 h2
    cases a; cases b; exact congrArg String.mk hd⟩

/-- The keys of a sorted entry list are the sorted keys. -/
theorem map_fst_sortEntries (es : List (String × Json)) :
    (sortEntries es).map Prod.fst = sortedKeys es := by
  unfold sortEntries
  rw [List.map_map]
  have hid : ∀ z ∈ sortedKeys es,
      (Prod.fst ∘ fun k => (k, (jsObjGet es k).getD Json.null)) z = id z :=
    fun z _ => rfl
  rw [listMap_congr hid, List.map_id]

/-- Membership in the sorted key list. -/
theorem mem_sortedKeys (es : List (String × Json)) (z : String) :
    z ∈ sortedKeys es ↔ z ∈ es.map Prod.fst :=
  (List.perm_insertionSort strLeRel (es.map Prod.fst)).mem_iff

/-- `sortEntries` depends only on the key multiset and the per-key lookup. -/
theorem sortEntries_eq_of (es fs : List (String × Json))
    (hkeys : (es.map Prod.fst).Perm (fs.map Prod.fst))
    (hget : ∀ z ∈ es.map Prod.fst,
      (jsObjGet es z).getD Json.null = (jsObjGet fs z).getD Json.null) :
    sortEntries es = sortEntries fs := by
  have hs : sortedKeys es = sortedKeys fs :=
    List.eq_of_perm_of_sorted
      ((List.perm_insertionSort strLeRel _).trans
        (hkeys.trans (List.perm_insertionSort strLeRel _).symm))
      (List.sorted_insertionSort strLeRel _)
      (List.sorted_insertionSort strLeRel _)
  unfold sortEntries
  rw [← hs]
  exact listMap_congr (fun z hz => by
    rw [hget z ((mem_sortedKeys es z).mp hz)])

/-- Conversely, equal `sortEntries` force equal key multisets and equal
per-key lookups. -/
theorem sortEntries_inv (es fs : List (String × Json))
    (h : sortEntries es = sortEntries fs) :
    (es.map Prod.fst).Perm (fs.map Prod.fst) ∧
    ∀ z ∈ es.map Prod.fst,
      (jsObjGet es z).getD Json.null = (jsObjGet fs z).getD Json.null := by
  have hk : sortedKeys es = sortedKeys fs := by
    have h2 := congrArg (List.map Prod.fst) h
    rwa [map_fst_sortEntries, map_fst_sortEntries] at h2
  constructor
  · have p1 : (es.map Prod.fst).Perm (sortedKeys es) :=
      (List.perm_insertionSort strLeRel _).symm
    rw [hk] at p1
    exact p1.trans (List.perm_insertionSort strLeRel _)
  · intro z hz
    have hz' : z ∈ sortedKeys es := (mem_sortedKeys es z).mpr hz
    unfold sortEntries at h
    rw [← hk] at h
    have := listMap_pointwise h z hz'
    exact congrArg Prod.snd this

/-- Prepending the same entry preserves equality of sorted entry lists. -/
theorem sortEntries_cons_congr (k : String) (a : Json)
    (A B : List (String × Json)) (h : sortEntries A = sortEntries B) :
    sortEntries ((k, a) :: A) = sortEntries ((k, a) :: B) := by
  obtain ⟨hperm, hget⟩ := sortEntries_inv A B h
  apply sortEntries_eq_of
  · exact hperm.cons k
  · intro z hz
    by_cases hzk : k = z
    · show (if k = z then some a else jsObjGet A z).getD Json.null =
        (if k = z then some a else jsObjGet B z).getD Json.null
      rw [if_pos hzk, if_pos hzk]
    · show (if k = z then some a else jsObjGet A z).getD Json.null =
        (if k = z then some a else jsObjGet B z).getD Json.null
      rw [if_neg hzk, if_neg hzk]
      have hz' : z ∈ A.map Prod.fst := by
        rcases List.mem_cons.mp hz with h' | h'
        · exact absurd h'.symm hzk
        · exact h'
      exact hget z hz'

/-- Transposing two entries with distinct keys does not change the sorted
entry list. -/
theorem sortEntries_swap (k₁ k₂ : String) (a₁ a₂ : Json)
    (C : List (String × Json)) (hne : k₁ ≠ k₂) :
    sortEntries ((k₁, a₁) :: (k₂, a₂) :: C) =
      sortEntries ((k₂, a₂) :: (k₁, a₁) :: C) := by
  apply sortEntries_eq_of
  · exact List.Perm.swap k₂ k₁ (C.map Prod.fst)
  · intro z hz
    show (if k₁ = z then some a₁ else if k₂ = z then some a₂ else jsObjGet C z).getD Json.null =
      (if k₂ = z then some a₂ else if k₁ = z then some a₁ else jsObjGet C z).getD Json.null
    by_cases h1 : k₁ = z
    · rw [if_pos h1, if_neg (fun e => hne (h1.trans e.symm)), if_pos h1]
    · by_cases h2 : k₂ = z
      · rw [if_neg h1, if_pos h2, if_pos h2]
      · rw [if_neg h1, if_neg h2, if_neg h2, if_neg h1]

/-- Structurally equal values have equal key-sorted forms. -/
theorem stableSortKeys_structEq {a b : Json} (h : StructEq a b) :
    stableSortKeys a = stableSortKeys b := by
  induction h with
  | null => rfl
  | undefined => rfl
  | bool b => rfl
  | num n => rfl
  | str s => rfl
  | arrNil => rfl
  | arrCons h1 h2 ih1 ih2 =>
    simp only [stableSortKeys, sskArr] at ih2 ⊢
    injection ih2 with ih2'
    rw [ih1, ih2']
  | objNil => rfl
  | objCons k h1 h2 ih1 ih2 =>
    simp only [stableSortKeys, sskObj] at ih2 ⊢
    injection ih2 with ih2'
    rw [ih1]
    exact congrArg Json.obj (sortEntries_cons_congr k _ _ _ ih2')
  | objSwap k₁ k₂ x₁ x₂ es hne =>
    simp only [stableSortKeys, sskObj]
    exact congrArg Json.obj (sortEntries_swap k₁ k₂ _ _ _ hne)
  | trans h1 h2 ih1 ih2 => exact ih1.trans ih2

/-- C8: the canonical string is mapping-key-order independent but
array-order sensitive: structurally equal values (same type tree, same
keys/values up to mapping entry order) have identical `stableKey`, in
particular on the spec's example pair, while `[1,2]` and `[2,1]` differ. -/
theorem c8_stable_key :
    (∀ a b : Json, StructEq a b → stableKey a = stableKey b) ∧
    stableKey (.obj [("b", .num 2), ("a", .num 1)]) =
      stableKey (.obj [("a", .num 1), ("b", .num 2)]) ∧
    stableKey (.arr [.num 1, .num 2]) ≠ stableKey (.arr [.num 2, .num 1]) :=
  ⟨fun _ _ h => congrArg jsonStringify (stableSortKeys_structEq h),
    by decide, by decide⟩

/-- C8 witness: the theorem applied to the derivation transposing the two
distinct-key entries of `{"b":2,"a":1}`. -/
theorem c8_witness :
    StructEq (.obj [("b", Json.num 2), ("a", Json.num 1)])
      (.obj [("a", Json.num 1), ("b", Json.num 2)]) ∧
    stableKey (.obj [("b", Json.num 2), ("a", Json.num 1)]) =
      stableKey (.obj [("a", Json.num 1), ("b", Json.num 2)]) := by
  have hd : StructEq (.obj [("b", Json.num 2), ("a", Json.num 1)])
      (.obj [("a", Json.num 1), ("b", Json.num 2)]) :=
    StructEq.objSwap "b" "a" (.num 2) (.num 1) [] (by decide)
  exact ⟨hd, c8_stable_key.1 _ _ hd⟩
